import Mathlib

/-!
Verification of the permission-filtered real-time event broadcaster
(`src/server/structures/SocketIO.js`) against its design specification.

The JavaScript class is shallowly embedded: its methods become pure Lean
functions, external collaborators (the strategy registry, the permission
evaluator, the sanitize/transform services, the transport adapter modules)
become explicit environment records whose operations return `Except` to model
thrown exceptions, and the observable side effects of a broadcast (ability
generations, capability consultations, pipeline calls, socket emissions) are
threaded through an explicit trace.
-/

/-- Opaque model of a thrown JavaScript exception / rejected promise value. -/
abbrev Err := String

/-- A model of JavaScript values, rich enough to express the truthiness guard
`if (!rawData) return;`, the wrapper object `{ data }` emitted by `raw`, and
the shallow copy `{ ...data }` emitted by `emit`.  Numbers are modelled as
integers plus a separate `nan` constructor (the claims only concern `0` and
`NaN`). -/
inductive JSVal where
  | null
  | undefined
  | bool (b : Bool)
  | num (n : Int)
  | nan
  | str (s : String)
  | obj (fields : List (String × JSVal))
deriving Repr

/-- JavaScript truthiness: `null`, `undefined`, `false`, `0`, `NaN` and the
empty string are falsy; every other value (including every object) is truthy.
This is the test performed by `if (!rawData)`. -/
def truthy : JSVal → Bool
  | .null => false
  | .undefined => false
  | .bool b => b
  | .num n => decide (n ≠ 0)
  | .nan => false
  | .str s => decide (s ≠ "")
  | .obj _ => true

/-- Own enumerable properties of a value, as collected by object spread
`{ ...v }`: an object contributes its fields, a string contributes its
indexed characters, primitives contribute nothing. -/
def ownProps : JSVal → List (String × JSVal)
  | .obj fs => fs
  | .str s => s.toList.enum.map (fun p => (toString p.1, JSVal.str (String.mk [p.2])))
  | _ => []

/-- The object-spread expression `{ ...v }`: a fresh object holding exactly
the own enumerable properties of `v`, with no wrapper key. -/
def spread (v : JSVal) : JSVal := .obj (ownProps v)

/-- `SchemaDescriptor`: the two fields of `schema` the broadcaster reads. -/
structure Schema where
  singularName : String
  uid : String
deriving Repr

/-- One entry of `room.permissions`.  Besides `action` an entry may carry
further room-specific fields, which the broadcaster strips; they are modelled
as an opaque association list. -/
structure Permission where
  action : String
  extraFields : List (String × String)
deriving Repr, DecidableEq

/-- The `({ action }) => ({ action })` projection target: a permission record
holding the action and nothing else. -/
structure ProjectedPermission where
  action : String
deriving Repr, DecidableEq

/-- `room.permissions.map(({ action }) => ({ action }))` (line 111). -/
def projectPermissions (ps : List Permission) : List ProjectedPermission :=
  ps.map (fun p => { action := p.action })

/-- The room type compared against `API_TOKEN_TYPE.FULL_ACCESS`.
`src/utils/constants` is not part of the provided sources; following the
spec's data model the type is a two-valued enum, `fullAccess` standing for
equality with the `FULL_ACCESS` constant and `scoped` for any other value. -/
inductive RoomType where
  | fullAccess
  | scoped
deriving Repr, DecidableEq

/-- A room as produced by a strategy: the fields the broadcaster reads
(`type`, `permissions`) plus a `name` available to the strategy's own
`getRoomName`/`credentials` functions. -/
structure Room where
  name : String
  type : RoomType
  permissions : List Permission
deriving Repr

/-- An ability object, reduced to its `can(capabilityKey)` query. -/
abbrev Ability := String → Bool

/-- The viewer auth context assembled at lines 120-128 and passed to the
sanitize service. -/
structure AuthCtx where
  name : String
  ability : Ability
  verifyTag : Option String
  credentials : Option JSVal

/-- A subscription strategy from the strategy service registry.  `getRooms`
is fallible (it may reject); `verifyTag` stands for the opaque `verify`
function passed through into the auth context; `credentials` is optional,
mirroring the `strategy.credentials?.(room)` optional call. -/
structure Strategy where
  name : String
  getRooms : Except Err (List Room)
  getRoomName : Room → String
  verifyTag : Option String
  credentials : Option (Room → JSVal)

/-- The external collaborators of `emit`: the strategy registry (an ordered
list of own enumerable properties, matching `for…in` + `hasOwnProperty`),
the permission evaluator, and the sanitize/transform services.  Each external
call may throw, modelled by `Except`. -/
structure EmitEnv where
  strategyService : List (String × Strategy)
  generateAbility : List ProjectedPermission → Except Err Ability
  sanitizeOutput : JSVal → Schema → AuthCtx → Except Err JSVal
  transformResponse : JSVal → Schema → Except Err JSVal

/-- One socket emission `this._socket.to(room).emit(event, payload)`. -/
structure Emission where
  room : String
  event : String
  payload : JSVal
deriving Repr

/-- The observable side effects of one broadcast: the arguments of every
`generateAbility` call, every capability key consulted through
`ability.can`, counts of sanitize and transform invocations, and every
emission, all in execution order. -/
structure Trace where
  abilityCalls : List (List ProjectedPermission)
  canCalls : List String
  sanitizeCount : Nat
  transformCount : Nat
  emissions : List Emission

/-- The trace before a broadcast starts. -/
def Trace.empty : Trace :=
  { abilityCalls := [], canCalls := [], sanitizeCount := 0
    transformCount := 0, emissions := [] }

/-- The capability key `schema.uid + '.' + event` of line 114. -/
def capabilityKey (schema : Schema) (event : String) : String :=
  schema.uid ++ "." ++ event

/-- The wire event name `` `${schema.singularName}:${event}` `` of line 102. -/
def wireEventName (schema : Schema) (event : String) : String :=
  schema.singularName ++ ":" ++ event

/-- `roomName.replace(' ', '-')` on the character list: JavaScript
`String.prototype.replace` with a string pattern rewrites only the first
occurrence. -/
def replaceFirstSpaceL : List Char → List Char
  | [] => []
  | c :: cs => if c = ' ' then '-' :: cs else c :: replaceFirstSpaceL cs

/-- `roomName.replace(' ', '-')` (line 136). -/
def jsReplaceFirst (s : String) : String :=
  String.mk (replaceFirstSpaceL s.data)

namespace SocketIOModel

/-- Lines 110-137: process one room of one strategy.  Projects the room's
permissions, generates a fresh ability, evaluates the short-circuit admit
condition `room.type === FULL_ACCESS || ability.can(uid + '.' + event)`
(recording the capability consultation only when the left disjunct is false),
and on admit runs sanitize, then transform, then emits
`{ ...data }` under the wire event name to the space-sanitized room name.
Any throwing external call aborts with that error, keeping the side effects
produced so far. -/
def processRoom (env : EmitEnv) (schema : Schema) (event eventName : String)
    (rawData : JSVal) (strat : Strategy) (room : Room) (t : Trace) :
    Except Err Unit × Trace :=
  let permissions := projectPermissions room.permissions
  let t1 := { t with abilityCalls := t.abilityCalls ++ [permissions] }
  match env.generateAbility permissions with
  | .error e => (.error e, t1)
  | .ok ability =>
    let st :=
      if room.type = RoomType.fullAccess then (true, t1)
      else (ability (capabilityKey schema event),
            { t1 with canCalls := t1.canCalls ++ [capabilityKey schema event] })
    let adm := st.1
    let t2 := st.2
    if adm then
      let auth : AuthCtx :=
        { name := strat.name, ability := ability, verifyTag := strat.verifyTag
          credentials := strat.credentials.map (fun f => f room) }
      let t3 := { t2 with sanitizeCount := t2.sanitizeCount + 1 }
      match env.sanitizeOutput rawData schema auth with
      | .error e => (.error e, t3)
      | .ok sanitizedData =>
        let roomName := strat.getRoomName room
        let t4 := { t3 with transformCount := t3.transformCount + 1 }
        match env.transformResponse sanitizedData schema with
        | .error e => (.error e, t4)
        | .ok data =>
          (.ok (), { t4 with emissions := t4.emissions ++
            [{ room := jsReplaceFirst roomName, event := eventName
               payload := spread data }] })
    else (.ok (), t2)

/-- The inner `for (const room of rooms)` loop: rooms in order, stopping at
the first thrown error (no catch in the source). -/
def processRooms (env : EmitEnv) (schema : Schema) (event eventName : String)
    (rawData : JSVal) (strat : Strategy) :
    List Room → Trace → Except Err Unit × Trace
  | [], t => (.ok (), t)
  | room :: rs, t =>
    match processRoom env schema event eventName rawData strat room t with
    | (.error e, t1) => (.error e, t1)
    | (.ok _, t1) => processRooms env schema event eventName rawData strat rs t1

/-- The outer `for (const strategyType in strategyService)` loop: for each
registered strategy, await `getRooms()` (uncaught: a rejection aborts the
whole broadcast) and process its rooms. -/
def emitLoop (env : EmitEnv) (schema : Schema) (event eventName : String)
    (rawData : JSVal) :
    List (String × Strategy) → Trace → Except Err Unit × Trace
  | [], t => (.ok (), t)
  | (_, strat) :: rest, t =>
    match strat.getRooms with
    | .error e => (.error e, t)
    | .ok rooms =>
      match processRooms env schema event eventName rawData strat rooms t with
      | (.error e, t1) => (.error e, t1)
      | (.ok _, t1) => emitLoop env schema event eventName rawData rest t1

/-- Lines 92-141: `async emit({ event, schema, data: rawData })`.  Returns
immediately when `rawData` is falsy; otherwise computes the wire event name
and drives every strategy's rooms through the authorization gate and payload
pipeline. -/
def emit (env : EmitEnv) (event : String) (schema : Schema) (rawData : JSVal)
    (t : Trace) : Except Err Unit × Trace :=
  if truthy rawData = false then (.ok (), t)
  else emitLoop env schema event (wireEventName schema event) rawData
    env.strategyService t

/-- The single emission performed by `raw`: the chain of rooms scoped via
`.to(...)` (empty chain = broadcast to every connected client), the event
name, and the wire payload. -/
structure RawEmission where
  roomChain : List String
  event : String
  payload : JSVal
deriving Repr

/-- Lines 143-154: `async raw({ event, data, rooms })`.  When `rooms` is
present and has nonzero length, every listed room is chained onto the
emitter in order via `.to(r)`; the payload is the wrapper object
`{ data }`. -/
def raw (event : String) (data : JSVal) (rooms : Option (List String)) :
    RawEmission :=
  let chain :=
    match rooms with
    | none => []
    | some rs =>
      if rs.length = 0 then []
      else rs.foldl (fun acc r => acc ++ [r]) []
  { roomChain := chain, event := event, payload := .obj [("data", data)] }

/-- The auth context `emit` assembles for a given room when the permission
evaluator is the pure function `gen`. -/
def mkAuthCtx (gen : List ProjectedPermission → Ability) (strat : Strategy)
    (room : Room) : AuthCtx :=
  { name := strat.name
    ability := gen (projectPermissions room.permissions)
    verifyTag := strat.verifyTag
    credentials := strat.credentials.map (fun f => f room) }

/-- An environment whose evaluator and pipeline services are pure functions
that never throw: the success path of a broadcast. -/
def pureEnv (svc : List (String × Strategy))
    (gen : List ProjectedPermission → Ability)
    (san : JSVal → Schema → AuthCtx → JSVal)
    (tr : JSVal → Schema → JSVal) : EmitEnv :=
  { strategyService := svc
    generateAbility := fun ps => .ok (gen ps)
    sanitizeOutput := fun d s a => .ok (san d s a)
    transformResponse := fun d s => .ok (tr d s) }

/-- The admit condition of line 114 as a boolean over the pure evaluator. -/
def admits (gen : List ProjectedPermission → Ability) (schema : Schema)
    (event : String) (room : Room) : Bool :=
  (room.type = RoomType.fullAccess) ||
    gen (projectPermissions room.permissions) (capabilityKey schema event)

/-- The emission an admitted room receives under the pure services. -/
def roomEmission (gen : List ProjectedPermission → Ability)
    (san : JSVal → Schema → AuthCtx → JSVal) (tr : JSVal → Schema → JSVal)
    (schema : Schema) (eventName : String) (rawData : JSVal)
    (strat : Strategy) (room : Room) : Emission :=
  { room := jsReplaceFirst (strat.getRoomName room)
    event := eventName
    payload := spread (tr (san rawData schema (mkAuthCtx gen strat room)) schema) }

/-- Characterization of one room's processing under non-throwing services:
it always succeeds, records exactly one ability generation with the projected
permissions, consults the capability key exactly when the room is not
FULL_ACCESS, and runs the pipeline and emits exactly when the admit condition
holds. -/
theorem processRoom_pure (svc : List (String × Strategy))
    (gen : List ProjectedPermission → Ability)
    (san : JSVal → Schema → AuthCtx → JSVal) (tr : JSVal → Schema → JSVal)
    (schema : Schema) (event eventName : String) (rawData : JSVal)
    (strat : Strategy) (room : Room) (t : Trace) :
    processRoom (pureEnv svc gen san tr) schema event eventName rawData strat
        room t =
      (.ok (),
       { abilityCalls := t.abilityCalls ++ [projectPermissions room.permissions]
         canCalls := t.canCalls ++
           (if room.type = RoomType.fullAccess then []
            else [capabilityKey schema event])
         sanitizeCount := t.sanitizeCount +
           (if admits gen schema event room then 1 else 0)
         transformCount := t.transformCount +
           (if admits gen schema event room then 1 else 0)
         emissions := t.emissions ++
           (if admits gen schema event room then
             [roomEmission gen san tr schema eventName rawData strat room]
            else []) }) := by
  unfold processRoom pureEnv admits roomEmission mkAuthCtx
  by_cases hfa : room.type = RoomType.fullAccess
  · simp [hfa]
  · simp [hfa]
    by_cases hcan :
        gen (projectPermissions room.permissions) (capabilityKey schema event) = true
    · simp [hcan]
    · simp [hcan]

end SocketIOModel

/-- The transport adapter states of the selector state machine. -/
inductive AdapterState where
  | unselected
  | distributed
  | clusterLocal
  | localOnly
deriving Repr, DecidableEq

/-- The external operations of adapter construction, each of which may throw
(synchronously for the `require` calls, as a rejected promise for the client
connections): `require('redis')` together with client creation,
`Promise.all([pubClient.connect(), subClient.connect()])`,
`require('@socket.io/cluster-adapter')` together with its installation, and
— crucially — the fallback installation at line 87, which calls the
module-scope `createAdapter` imported at line 4 from
`@socket.io/redis-adapter` with zero client arguments (not a local adapter),
so its own failure is a live error path inside the catch handlers. -/
structure AdapterEnv where
  requireRedis : Except Err Unit
  connectClients : Except Err Unit
  requireCluster : Except Err Unit
  installFallbackAdapter : Except Err Unit

/-- Lines 84-88: `_fallbackToLocalAdapter` logs a warning and calls
`this._socket.adapter(createAdapter())` — the module-scope redis-adapter
factory invoked with no pub/sub clients.  If that installation throws, the
exception arises inside the `catch` block (line 69) or the promise `.catch`
handler (line 64) and therefore escapes the selector; nothing re-catches
it. -/
def fallbackToLocalAdapter (env : AdapterEnv) : Except Err AdapterState :=
  match env.installFallbackAdapter with
  | .error e => .error e
  | .ok _ => .ok .localOnly

/-- Lines 39-71: `_setupRedisAdapter`.  The synchronous body is wrapped in
`try`/`catch` with the catch calling the fallback; the connection promise
carries a `.catch` that also calls the fallback; on success the distributed
adapter is installed.  An `.error` result is an exception escaping the
selector (possible only out of the fallback installation itself). -/
def setupRedisAdapter (env : AdapterEnv) : Except Err AdapterState :=
  match env.requireRedis with
  | .error _ => fallbackToLocalAdapter env
  | .ok _ =>
    match env.connectClients with
    | .error _ => fallbackToLocalAdapter env
    | .ok _ => .ok .distributed

/-- Lines 73-82: `_setupDevelopmentAdapter`.  The `try`/`catch` catches a
missing cluster-adapter dependency; the catch only logs and installs
nothing, leaving the connection server on its default in-process adapter,
i.e. local-only single-process operation. -/
def setupDevelopmentAdapter (env : AdapterEnv) : Except Err AdapterState :=
  match env.requireCluster with
  | .error _ => .ok .localOnly
  | .ok _ => .ok .clusterLocal

/-- Lines 32-36: the environment-based selection performed once at
construction. -/
def setupAdapter (production : Bool) (env : AdapterEnv) :
    Except Err AdapterState :=
  if production then setupRedisAdapter env else setupDevelopmentAdapter env

open SocketIOModel

/-- C3: a broadcast whose raw payload is null or absent (undefined) returns
immediately: the trace is unchanged (zero ability generations, zero
capability consultations, zero sanitize/transform calls, zero emissions) and
the result is a normal return for every environment, so no strategy's rooms
are ever reached. -/
theorem broadcast_null_payload_noop (env : EmitEnv) (event : String)
    (schema : Schema) (t : Trace) :
    emit env event schema JSVal.null t = (.ok (), t)
    ∧ emit env event schema JSVal.undefined t = (.ok (), t) :=
  ⟨rfl, rfl⟩

/-- C9: the no-payload guard `if (!rawData)` is a JavaScript truthiness
test: every falsy payload — `0`, the empty string, `false`, `NaN`, and in
general any value whose truthiness is false — makes the broadcast return
immediately with an unchanged trace (zero ability generations, zero pipeline
calls, zero emissions). -/
theorem broadcast_falsy_payload_noop (env : EmitEnv) (event : String)
    (schema : Schema) (t : Trace) (rawData : JSVal)
    (h : rawData = JSVal.num 0 ∨ rawData = JSVal.str "" ∨
      rawData = JSVal.bool false ∨ rawData = JSVal.nan ∨
      truthy rawData = false) :
    emit env event schema rawData t = (.ok (), t) := by
  have hf : truthy rawData = false := by
    rcases h with h | h | h | h | h
    · subst h; rfl
    · subst h; rfl
    · subst h; rfl
    · subst h; rfl
    · exact h
  unfold emit
  simp [hf]

/-- Witness for C9 at the concrete falsy payload `0`. -/
theorem broadcast_falsy_payload_noop_witness :
    emit (pureEnv [] (fun _ _ => true) (fun d _ _ => d) (fun d _ => d))
      "update" { singularName := "article", uid := "api::article.article" }
      (JSVal.num 0) Trace.empty = (.ok (), Trace.empty) :=
  broadcast_falsy_payload_noop _ _ _ _ _ (Or.inl rfl)

/-- The failure points the selector does catch settle in local-only
operation, provided the fallback installation itself does not throw. -/
theorem adapter_caught_failures_settle_local (production : Bool)
    (env : AdapterEnv) (e : Err) :
    ((production = true ∧ env.requireRedis = .error e ∧
        env.installFallbackAdapter = .ok ()) →
      setupAdapter production env = .ok .localOnly)
    ∧ ((production = true ∧ env.connectClients = .error e ∧
        env.installFallbackAdapter = .ok ()) →
      setupAdapter production env = .ok .localOnly)
    ∧ ((production = false ∧ env.requireCluster = .error e) →
      setupAdapter production env = .ok .localOnly) := by
  refine ⟨?_, ?_, ?_⟩
  · rintro ⟨hp, hr, hf⟩
    simp [setupAdapter, hp, setupRedisAdapter, hr, fallbackToLocalAdapter, hf]
  · rintro ⟨hp, hc, hf⟩
    cases hr : env.requireRedis with
    | error eo =>
      simp [setupAdapter, hp, setupRedisAdapter, hr, fallbackToLocalAdapter,
        hf]
    | ok u =>
      simp [setupAdapter, hp, setupRedisAdapter, hr, hc,
        fallbackToLocalAdapter, hf]
  · rintro ⟨hp, hc⟩
    simp [setupAdapter, hp, setupDevelopmentAdapter, hc]

/-- C4 (code bug): the claim — and the source's own comment and log at
lines 85-86 ("Falling back to local adapter", "Will work for single PM2
instance") — say the catch handlers land on a working local adapter and no
exception propagates out of the selector.  But line 87 installs the
module-scope `@socket.io/redis-adapter` factory (line 4) with zero client
arguments, not a local adapter; when that installation throws, the
exception arises inside the `catch`/`.catch` handler and escapes the
selector on both production failure paths. -/
theorem adapter_fallback_install_failure_escapes :
    setupAdapter true
      { requireRedis := .error "Cannot find module redis"
        connectClients := .ok (), requireCluster := .ok ()
        installFallbackAdapter := .error "pubClient is undefined" }
      = .error "pubClient is undefined"
    ∧ setupAdapter true
      { requireRedis := .ok (), connectClients := .error "ECONNREFUSED"
        requireCluster := .ok ()
        installFallbackAdapter := .error "pubClient is undefined" }
      = .error "pubClient is undefined" :=
  ⟨rfl, rfl⟩

/-- The boolean admit condition holds exactly when the room is FULL_ACCESS
or its ability grants the capability key. -/
theorem admits_iff (gen : List ProjectedPermission → Ability) (schema : Schema)
    (event : String) (room : Room) :
    admits gen schema event room = true ↔
      (room.type = RoomType.fullAccess ∨
        gen (projectPermissions room.permissions)
          (capabilityKey schema event) = true) := by
  simp [admits]

/-- C1: for a room processed during a broadcast (under non-throwing
services), an emission is produced for it if and only if the room is
FULL_ACCESS or the ability generated from the room's permissions grants the
capability key `schema.uid + "." + event`; for a FULL_ACCESS room the
capability check is short-circuited (no `can` consultation is recorded); a
non-FULL_ACCESS room whose ability denies the key produces no emission. -/
theorem room_admitted_iff_full_access_or_can
    (svc : List (String × Strategy)) (gen : List ProjectedPermission → Ability)
    (san : JSVal → Schema → AuthCtx → JSVal) (tr : JSVal → Schema → JSVal)
    (schema : Schema) (event eventName : String) (rawData : JSVal)
    (strat : Strategy) (room : Room) (t t2 : Trace) (r : Except Err Unit)
    (h : processRoom (pureEnv svc gen san tr) schema event eventName rawData
      strat room t = (r, t2)) :
    (t2.emissions.length = t.emissions.length + 1 ↔
      (room.type = RoomType.fullAccess ∨
        gen (projectPermissions room.permissions)
          (capabilityKey schema event) = true))
    ∧ (room.type = RoomType.fullAccess → t2.canCalls = t.canCalls)
    ∧ (room.type ≠ RoomType.fullAccess →
        gen (projectPermissions room.permissions)
          (capabilityKey schema event) = false →
        t2.emissions = t.emissions) := by
  rw [processRoom_pure] at h
  injection h with h1 h2
  subst h2
  refine ⟨?_, ?_, ?_⟩
  · rw [← admits_iff gen schema event room]
    by_cases hadm : admits gen schema event room = true
    · simp [hadm]
    · simp [hadm]
  · intro hfa
    simp [hfa]
  · intro hfa hcan
    have hadm : admits gen schema event room = false := by
      rw [← Bool.not_eq_true]
      rw [admits_iff gen schema event room]
      push_neg
      exact ⟨hfa, by simp [hcan]⟩
    simp [hadm]

/-- Witness for C1 at a concrete broadcast step: a FULL_ACCESS room is
emitted to with no capability consultation recorded. -/
theorem room_admitted_iff_full_access_or_can_witness :
    (processRoom
      (pureEnv [] (fun _ _ => false) (fun d _ _ => d) (fun d _ => d))
      { singularName := "article", uid := "api::article.article" }
      "update" "article:update" (JSVal.obj [])
      { name := "s", getRooms := .ok [], getRoomName := fun r => r.name
        verifyTag := none, credentials := none }
      { name := "r", type := RoomType.fullAccess, permissions := [] }
      Trace.empty).2.canCalls = Trace.empty.canCalls := by
  exact (room_admitted_iff_full_access_or_can [] (fun _ _ => false)
    (fun d _ _ => d) (fun d _ => d)
    { singularName := "article", uid := "api::article.article" }
    "update" "article:update" (JSVal.obj [])
    { name := "s", getRooms := .ok [], getRoomName := fun r => r.name
      verifyTag := none, credentials := none }
    { name := "r", type := RoomType.fullAccess, permissions := [] }
    Trace.empty _ _ rfl).2.1 rfl

/-- One strategy's room loop records one fresh ability generation per room,
in room order, with exactly the projected permissions. -/
theorem processRooms_abilityCalls (svc : List (String × Strategy))
    (gen : List ProjectedPermission → Ability)
    (san : JSVal → Schema → AuthCtx → JSVal) (tr : JSVal → Schema → JSVal)
    (schema : Schema) (event eventName : String) (rawData : JSVal)
    (strat : Strategy) (rooms : List Room) (t : Trace) :
    (processRooms (pureEnv svc gen san tr) schema event eventName rawData
        strat rooms t).2.abilityCalls
      = t.abilityCalls ++
          rooms.map (fun r => projectPermissions r.permissions) := by
  induction rooms generalizing t with
  | nil => simp [processRooms]
  | cons room rs ih =>
    rw [processRooms, processRoom_pure]
    rw [ih]
    simp

/-- One strategy's room loop never throws under non-throwing services. -/
theorem processRooms_fst_ok (svc : List (String × Strategy))
    (gen : List ProjectedPermission → Ability)
    (san : JSVal → Schema → AuthCtx → JSVal) (tr : JSVal → Schema → JSVal)
    (schema : Schema) (event eventName : String) (rawData : JSVal)
    (strat : Strategy) (rooms : List Room) (t : Trace) :
    (processRooms (pureEnv svc gen san tr) schema event eventName rawData
        strat rooms t).1 = .ok () := by
  induction rooms generalizing t with
  | nil => rfl
  | cons room rs ih =>
    rw [processRooms, processRoom_pure]
    exact ih _

/-- The strategy registry of a pure environment is the given list. -/
theorem pureEnv_strategyService (svc : List (String × Strategy))
    (gen : List ProjectedPermission → Ability)
    (san : JSVal → Schema → AuthCtx → JSVal) (tr : JSVal → Schema → JSVal) :
    (pureEnv svc gen san tr).strategyService = svc := rfl

/-- The strategy loop under non-throwing services with every `getRooms()`
resolving: each strategy contributes one block of ability generations, one
per room with the projected permissions, in registration order. -/
theorem emitLoop_abilityCalls (svc : List (String × Strategy))
    (gen : List ProjectedPermission → Ability)
    (san : JSVal → Schema → AuthCtx → JSVal) (tr : JSVal → Schema → JSVal)
    (schema : Schema) (event eventName : String) (rawData : JSVal)
    (roomsOf : Strategy → List Room)
    (svc2 : List (String × Strategy)) (t : Trace)
    (hrooms : ∀ p ∈ svc2, p.2.getRooms = .ok (roomsOf p.2)) :
    (emitLoop (pureEnv svc gen san tr) schema event eventName rawData svc2
        t).2.abilityCalls
      = t.abilityCalls ++
          (svc2.map (fun p => (roomsOf p.2).map
            (fun r => projectPermissions r.permissions))).flatten := by
  induction svc2 generalizing t with
  | nil => simp [emitLoop]
  | cons p rest ih =>
    obtain ⟨k, s⟩ := p
    rw [emitLoop, hrooms (k, s) (List.mem_cons_self _ _)]
    dsimp only []
    rcases hpr : processRooms (pureEnv svc gen san tr) schema event eventName
      rawData s (roomsOf s) t with ⟨r1, t1⟩
    have hr1 : r1 = .ok () := by
      have := processRooms_fst_ok svc gen san tr schema event eventName
        rawData s (roomsOf s) t
      rw [hpr] at this
      exact this
    subst hr1
    have ht1 : t1.abilityCalls = t.abilityCalls ++
        (roomsOf s).map (fun r => projectPermissions r.permissions) := by
      have := processRooms_abilityCalls svc gen san tr schema event eventName
        rawData s (roomsOf s) t
      rw [hpr] at this
      exact this
    dsimp only []
    rw [ih t1 (fun q hq => hrooms q (List.mem_cons_of_mem _ hq)), ht1]
    simp

/-- The schema used by the concrete broadcast scenarios below. -/
def articleSchema : Schema :=
  { singularName := "article", uid := "api::article.article" }

/-- A FULL_ACCESS room produced by the healthy strategy. -/
def goodRoom : Room :=
  { name := "good room", type := RoomType.fullAccess, permissions := [] }

/-- A strategy whose `getRooms()` resolves to one FULL_ACCESS room. -/
def goodStrategy : Strategy :=
  { name := "good", getRooms := .ok [goodRoom]
    getRoomName := fun r => r.name, verifyTag := none, credentials := none }

/-- A strategy whose `getRooms()` rejects. -/
def badStrategy : Strategy :=
  { name := "bad", getRooms := .error "boom"
    getRoomName := fun r => r.name, verifyTag := none, credentials := none }

/-- A registry where the failing strategy precedes the healthy one; the
evaluator and pipeline services are pure. -/
def mixedEnv : EmitEnv :=
  pureEnv [("bad", badStrategy), ("good", goodStrategy)]
    (fun _ _ => true) (fun d _ _ => d) (fun d _ => d)

/-- The same registry without the failing strategy. -/
def goodOnlyEnv : EmitEnv :=
  pureEnv [("good", goodStrategy)]
    (fun _ _ => true) (fun d _ _ => d) (fun d _ => d)

/-- A truthy raw payload for the scenarios. -/
def samplePayload : JSVal := JSVal.obj [("title", JSVal.str "x")]

/-- C5: in a broadcast over any registry of strategies whose `getRooms()`
resolve, the permission evaluator is invoked exactly once per processed
room, in processing order, and each invocation receives exactly the
projection of that room's `permissions` down to `{ action }` tuples — every
room's ability is freshly generated, never reused across rooms (and, since
the theorem holds for an arbitrary starting trace, repeated broadcasts each
append their own fresh generations rather than reusing earlier ones). -/
theorem ability_fresh_per_room (svc : List (String × Strategy))
    (gen : List ProjectedPermission → Ability)
    (san : JSVal → Schema → AuthCtx → JSVal) (tr : JSVal → Schema → JSVal)
    (schema : Schema) (event : String) (rawData : JSVal)
    (roomsOf : Strategy → List Room) (t : Trace)
    (htruthy : truthy rawData = true)
    (hrooms : ∀ p ∈ svc, p.2.getRooms = .ok (roomsOf p.2)) :
    (emit (pureEnv svc gen san tr) event schema rawData t).2.abilityCalls
      = t.abilityCalls ++
          (svc.map (fun p => (roomsOf p.2).map
            (fun r => projectPermissions r.permissions))).flatten := by
  unfold emit
  rw [htruthy]
  simp only [Bool.true_eq_false, if_false, pureEnv_strategyService]
  exact emitLoop_abilityCalls svc gen san tr schema event
    (wireEventName schema event) rawData roomsOf svc t hrooms

/-- Witness for C5: the single-strategy registry generates exactly one
ability, from the projected permissions of its one room. -/
theorem ability_fresh_per_room_witness :
    (emit goodOnlyEnv "update" articleSchema samplePayload
        Trace.empty).2.abilityCalls
      = [projectPermissions goodRoom.permissions] :=
  ability_fresh_per_room [("good", goodStrategy)] (fun _ _ => true)
    (fun d _ _ => d) (fun d _ => d) articleSchema "update" samplePayload
    (fun _ => [goodRoom]) Trace.empty rfl
    (by
      intro p hp
      rw [List.mem_singleton.mp hp]
      rfl)

/-- Counterexample to C2: with the failing strategy registered first, the
broadcast propagates its `getRooms()` rejection to the caller and the
healthy strategy's FULL_ACCESS room receives nothing (the trace stays
empty), even though the same broadcast without the failing strategy emits to
that room.  The source `emit` wraps no `try`/`catch` around strategy or room
processing, so one strategy's failure is not isolated. -/
theorem broadcast_failure_not_isolated :
    emit mixedEnv "update" articleSchema samplePayload Trace.empty
      = (.error "boom", Trace.empty)
    ∧ (emit goodOnlyEnv "update" articleSchema samplePayload
        Trace.empty).2.emissions.length = 1 :=
  ⟨rfl, rfl⟩

/-- The auth context built at lines 120-128 for a given ability object,
strategy and room. -/
def authCtxFor (ability : Ability) (strat : Strategy) (room : Room) :
    AuthCtx :=
  { name := strat.name, ability := ability, verifyTag := strat.verifyTag
    credentials := strat.credentials.map (fun f => f room) }

/-- Splitting the strategy loop at a prefix that completed without a
failure: the loop continues with the remaining strategies from the prefix's
final trace. -/
theorem emitLoop_append_ok (env : EmitEnv) (schema : Schema)
    (event eventName : String) (rawData : JSVal)
    (pre rest : List (String × Strategy)) (t t1 : Trace)
    (h : emitLoop env schema event eventName rawData pre t = (.ok (), t1)) :
    emitLoop env schema event eventName rawData (pre ++ rest) t
      = emitLoop env schema event eventName rawData rest t1 := by
  induction pre generalizing t with
  | nil =>
    rw [emitLoop] at h
    injection h with h1 h2
    rw [List.nil_append, h2]
  | cons p ps ih =>
    obtain ⟨k, s⟩ := p
    rw [List.cons_append, emitLoop]
    rw [emitLoop] at h
    cases hg : s.getRooms with
    | error e =>
      rw [hg] at h
      simp at h
    | ok rooms =>
      rw [hg] at h
      dsimp only [] at h ⊢
      rcases hpr : processRooms env schema event eventName rawData s rooms t
        with ⟨r1, t2⟩
      rw [hpr] at h
      cases r1 with
      | error e =>
        dsimp only [] at h
        simp at h
      | ok u =>
        dsimp only [] at h ⊢
        exact ih t2 h

/-- Splitting the room loop at a prefix that completed without a failure. -/
theorem processRooms_append_ok (env : EmitEnv) (schema : Schema)
    (event eventName : String) (rawData : JSVal) (strat : Strategy)
    (pre rest : List Room) (t t1 : Trace)
    (h : processRooms env schema event eventName rawData strat pre t
      = (.ok (), t1)) :
    processRooms env schema event eventName rawData strat (pre ++ rest) t
      = processRooms env schema event eventName rawData strat rest t1 := by
  induction pre generalizing t with
  | nil =>
    rw [processRooms] at h
    injection h with h1 h2
    rw [List.nil_append, h2]
  | cons room rs ih =>
    rw [List.cons_append, processRooms]
    rw [processRooms] at h
    rcases hpr : processRoom env schema event eventName rawData strat room t
      with ⟨r1, t2⟩
    rw [hpr] at h
    cases r1 with
    | error e =>
      dsimp only [] at h
      simp at h
    | ok u =>
      dsimp only [] at h ⊢
      exact ih t2 h

/-- C2 as amended: a failure thrown at any point of a broadcast — a
`getRooms()` rejection by a strategy at any registry position, or a failing
room-processing step (ability generation, sanitization, or transformation,
each of which makes that room's processing return the error) — propagates
out of the broadcast call to its caller as-is and aborts the broadcast at
that point: the rooms after the failing room and the strategies after the
failing strategy are not processed or emitted to. -/
theorem broadcast_strategy_failure_propagates (env : EmitEnv) (event : String)
    (schema : Schema) (rawData : JSVal) (t : Trace) (e : Err)
    (htruthy : truthy rawData = true) :
    (∀ (pre rest : List (String × Strategy)) (k : String) (s : Strategy)
        (t1 : Trace),
        env.strategyService = pre ++ (k, s) :: rest →
        emitLoop env schema event (wireEventName schema event) rawData pre t
          = (.ok (), t1) →
        s.getRooms = .error e →
        emit env event schema rawData t = (.error e, t1))
    ∧ (∀ (pre rest : List (String × Strategy)) (k : String) (s : Strategy)
        (rooms : List Room) (t1 t2 : Trace),
        env.strategyService = pre ++ (k, s) :: rest →
        emitLoop env schema event (wireEventName schema event) rawData pre t
          = (.ok (), t1) →
        s.getRooms = .ok rooms →
        processRooms env schema event (wireEventName schema event) rawData s
          rooms t1 = (.error e, t2) →
        emit env event schema rawData t = (.error e, t2))
    ∧ (∀ (eventName : String) (strat : Strategy)
        (roomsPre roomsRest : List Room) (room : Room) (t3 t4 : Trace),
        processRooms env schema event eventName rawData strat roomsPre t
          = (.ok (), t3) →
        processRoom env schema event eventName rawData strat room t3
          = (.error e, t4) →
        processRooms env schema event eventName rawData strat
          (roomsPre ++ room :: roomsRest) t = (.error e, t4))
    ∧ (∀ (eventName : String) (strat : Strategy) (room : Room) (t3 : Trace),
        (env.generateAbility (projectPermissions room.permissions)
            = .error e →
          (processRoom env schema event eventName rawData strat room t3).1
            = .error e)
        ∧ (∀ ability : Ability,
            env.generateAbility (projectPermissions room.permissions)
              = .ok ability →
            room.type = RoomType.fullAccess ∨
              ability (capabilityKey schema event) = true →
            env.sanitizeOutput rawData schema (authCtxFor ability strat room)
              = .error e →
            (processRoom env schema event eventName rawData strat room t3).1
              = .error e)
        ∧ (∀ (ability : Ability) (sanitized : JSVal),
            env.generateAbility (projectPermissions room.permissions)
              = .ok ability →
            room.type = RoomType.fullAccess ∨
              ability (capabilityKey schema event) = true →
            env.sanitizeOutput rawData schema (authCtxFor ability strat room)
              = .ok sanitized →
            env.transformResponse sanitized schema = .error e →
            (processRoom env schema event eventName rawData strat room t3).1
              = .error e)) := by
  refine ⟨?_, ?_, ?_, ?_⟩
  · intro pre rest k s t1 hsvc hpre hfail
    unfold emit
    rw [htruthy]
    simp only [Bool.true_eq_false, if_false]
    rw [hsvc, emitLoop_append_ok env schema event (wireEventName schema event)
      rawData pre ((k, s) :: rest) t t1 hpre]
    rw [emitLoop, hfail]
  · intro pre rest k s rooms t1 t2 hsvc hpre hok hfail
    unfold emit
    rw [htruthy]
    simp only [Bool.true_eq_false, if_false]
    rw [hsvc, emitLoop_append_ok env schema event (wireEventName schema event)
      rawData pre ((k, s) :: rest) t t1 hpre]
    rw [emitLoop, hok]
    dsimp only []
    rw [hfail]
  · intro eventName strat roomsPre roomsRest room t3 t4 hpre hfail
    rw [processRooms_append_ok env schema event eventName rawData strat
      roomsPre (room :: roomsRest) t t3 hpre]
    rw [processRooms, hfail]
  · intro eventName strat room t3
    refine ⟨?_, ?_, ?_⟩
    · intro hg
      unfold processRoom
      simp [hg]
    · intro ability hg hor hs
      simp only [authCtxFor] at hs
      unfold processRoom
      rcases hor with hfa | hcan
      · simp [hg, hfa, hs]
      · by_cases hfa : room.type = RoomType.fullAccess
        · simp [hg, hfa, hs]
        · simp [hg, hfa, hcan, hs]
    · intro ability sanitized hg hor hs ht
      simp only [authCtxFor] at hs
      unfold processRoom
      rcases hor with hfa | hcan
      · simp [hg, hfa, hs, ht]
      · by_cases hfa : room.type = RoomType.fullAccess
        · simp [hg, hfa, hs, ht]
        · simp [hg, hfa, hcan, hs, ht]

/-- A FULL_ACCESS room whose sanitization will fail. -/
def sanFailRoom : Room :=
  { name := "bad room", type := RoomType.fullAccess, permissions := [] }

/-- A second-position strategy whose room's sanitization fails. -/
def sanFailStrategy : Strategy :=
  { name := "san-fail", getRooms := .ok [sanFailRoom]
    getRoomName := fun r => r.name, verifyTag := none, credentials := none }

/-- A registry where the healthy strategy precedes one whose room makes the
sanitize service throw. -/
def sanFailEnv : EmitEnv :=
  { strategyService := [("good", goodStrategy), ("bad", sanFailStrategy)]
    generateAbility := fun _ => .ok (fun _ => true)
    sanitizeOutput := fun d _ a =>
      if a.name = "san-fail" then .error "sanitize boom" else .ok d
    transformResponse := fun d _ => .ok d }

/-- Witness for the amended C2: a sanitize failure in the second registered
strategy's room propagates out of the broadcast call. -/
theorem broadcast_strategy_failure_propagates_witness :
    (emit sanFailEnv "update" articleSchema samplePayload Trace.empty).1
      = .error "sanitize boom" := by
  have h := (broadcast_strategy_failure_propagates sanFailEnv "update"
    articleSchema samplePayload Trace.empty "sanitize boom" rfl).2.1
    [("good", goodStrategy)] [] "bad" sanFailStrategy [sanFailRoom] _ _
    rfl rfl rfl rfl
  rw [h]

/-- One strategy's room loop under non-throwing services emits exactly to
its admitted rooms, in room order. -/
theorem processRooms_emissions (svc : List (String × Strategy))
    (gen : List ProjectedPermission → Ability)
    (san : JSVal → Schema → AuthCtx → JSVal) (tr : JSVal → Schema → JSVal)
    (schema : Schema) (event eventName : String) (rawData : JSVal)
    (strat : Strategy) (rooms : List Room) (t : Trace) :
    (processRooms (pureEnv svc gen san tr) schema event eventName rawData
        strat rooms t).2.emissions
      = t.emissions ++
          (rooms.filter (fun room => admits gen schema event room)).map
            (fun room =>
              roomEmission gen san tr schema eventName rawData strat room) := by
  induction rooms generalizing t with
  | nil => simp [processRooms]
  | cons room rs ih =>
    rw [processRooms, processRoom_pure]
    dsimp only []
    rw [ih]
    by_cases hadm : admits gen schema event room = true
    · simp [List.filter_cons, hadm]
    · simp [List.filter_cons, hadm]

/-- The strategy loop under non-throwing services with every `getRooms()`
resolving: each strategy contributes the emissions of its admitted rooms, in
registration then room order. -/
theorem emitLoop_emissions (svc : List (String × Strategy))
    (gen : List ProjectedPermission → Ability)
    (san : JSVal → Schema → AuthCtx → JSVal) (tr : JSVal → Schema → JSVal)
    (schema : Schema) (event eventName : String) (rawData : JSVal)
    (roomsOf : Strategy → List Room)
    (svc2 : List (String × Strategy)) (t : Trace)
    (hrooms : ∀ p ∈ svc2, p.2.getRooms = .ok (roomsOf p.2)) :
    (emitLoop (pureEnv svc gen san tr) schema event eventName rawData svc2
        t).2.emissions
      = t.emissions ++
          (svc2.map (fun p =>
            ((roomsOf p.2).filter (fun room => admits gen schema event room)).map
              (fun room =>
                roomEmission gen san tr schema eventName rawData p.2
                  room))).flatten := by
  induction svc2 generalizing t with
  | nil => simp [emitLoop]
  | cons p rest ih =>
    obtain ⟨k, s⟩ := p
    rw [emitLoop, hrooms (k, s) (List.mem_cons_self _ _)]
    dsimp only []
    rcases hpr : processRooms (pureEnv svc gen san tr) schema event eventName
      rawData s (roomsOf s) t with ⟨r1, t1⟩
    have hr1 : r1 = .ok () := by
      have := processRooms_fst_ok svc gen san tr schema event eventName
        rawData s (roomsOf s) t
      rw [hpr] at this
      exact this
    subst hr1
    have ht1 : t1.emissions = t.emissions ++
        ((roomsOf s).filter (fun room => admits gen schema event room)).map
          (fun room =>
            roomEmission gen san tr schema eventName rawData s room) := by
      have := processRooms_emissions svc gen san tr schema event eventName
        rawData s (roomsOf s) t
      rw [hpr] at this
      exact this
    dsimp only []
    rw [ih t1 (fun q hq => hrooms q (List.mem_cons_of_mem _ hq)), ht1]
    simp

/-- C6: in every broadcast under non-throwing services whose strategies'
`getRooms()` all resolve, the emissions are exactly one per admitted room of
each registered strategy, in processing order, and every one of them
carries the wire event name `schema.singularName + ":" + event` and the
payload `transform(sanitize(rawPayload))` computed under that room's auth
context — sanitize runs first, transform is applied to its output (stated
for object-valued transform results, which the spread at line 136 re-emits
unchanged). -/
theorem broadcast_wire_event_and_pipeline (svc : List (String × Strategy))
    (gen : List ProjectedPermission → Ability)
    (san : JSVal → Schema → AuthCtx → JSVal) (tr : JSVal → Schema → JSVal)
    (schema : Schema) (event : String) (rawData : JSVal)
    (roomsOf : Strategy → List Room) (t : Trace)
    (htruthy : truthy rawData = true)
    (hrooms : ∀ p ∈ svc, p.2.getRooms = .ok (roomsOf p.2))
    (hobj : ∀ (strat : Strategy) (room : Room), ∃ fs,
        tr (san rawData schema (mkAuthCtx gen strat room)) schema
          = JSVal.obj fs) :
    (emit (pureEnv svc gen san tr) event schema rawData t).2.emissions
      = t.emissions ++
          (svc.map (fun p =>
            ((roomsOf p.2).filter (fun room => admits gen schema event room)).map
              (fun room =>
                { room := jsReplaceFirst (p.2.getRoomName room)
                  event := schema.singularName ++ ":" ++ event
                  payload := tr (san rawData schema (mkAuthCtx gen p.2 room))
                    schema }))).flatten := by
  have hpay : ∀ (strat : Strategy) (room : Room),
      roomEmission gen san tr schema (wireEventName schema event) rawData
          strat room
        = { room := jsReplaceFirst (strat.getRoomName room)
            event := schema.singularName ++ ":" ++ event
            payload := tr (san rawData schema (mkAuthCtx gen strat room))
              schema } := by
    intro strat room
    obtain ⟨fs, hfs⟩ := hobj strat room
    simp [roomEmission, wireEventName, hfs, spread, ownProps]
  unfold emit
  rw [htruthy]
  simp only [Bool.true_eq_false, if_false, pureEnv_strategyService]
  rw [emitLoop_emissions svc gen san tr schema event
    (wireEventName schema event) rawData roomsOf svc t hrooms]
  simp only [hpay]

/-- Witness for C6 at the concrete article scenario: wire event
`"article:update"` and identity pipeline services. -/
theorem broadcast_wire_event_and_pipeline_witness :
    (emit (pureEnv [("good", goodStrategy)] (fun _ _ => true)
        (fun d _ _ => d) (fun d _ => d)) "update" articleSchema samplePayload
        Trace.empty).2.emissions
      = [{ room := jsReplaceFirst "good room", event := "article:update"
           payload := samplePayload }] := by
  have h := broadcast_wire_event_and_pipeline [("good", goodStrategy)]
    (fun _ _ => true) (fun d _ _ => d) (fun d _ => d) articleSchema "update"
    samplePayload (fun _ => [goodRoom]) Trace.empty rfl
    (by
      intro p hp
      rw [List.mem_singleton.mp hp]
      rfl)
    (fun strat room => ⟨[("title", JSVal.str "x")], rfl⟩)
  rw [h]
  rfl

/-- C7: the room-name sanitization applied before emission replaces exactly
the first space with a hyphen: a name whose prefix `a` is space-free and
whose remainder starts at the first space comes out as `a ++ "-" ++ rest`
(later spaces untouched), a space-free name is unchanged, and every admitted
room's emission targets `jsReplaceFirst` of the strategy-derived room
name. -/
theorem room_name_first_space_hyphenated :
    (∀ (a b : List Char), (∀ c ∈ a, c ≠ ' ') →
        replaceFirstSpaceL (a ++ ' ' :: b) = a ++ '-' :: b)
    ∧ (∀ l : List Char, (∀ c ∈ l, c ≠ ' ') → replaceFirstSpaceL l = l)
    ∧ (∀ (svc : List (String × Strategy))
        (gen : List ProjectedPermission → Ability)
        (san : JSVal → Schema → AuthCtx → JSVal)
        (tr : JSVal → Schema → JSVal) (schema : Schema)
        (event eventName : String) (rawData : JSVal) (strat : Strategy)
        (room : Room) (t : Trace),
        admits gen schema event room = true →
        ((processRoom (pureEnv svc gen san tr) schema event eventName rawData
            strat room t).2.emissions.map Emission.room)
          = t.emissions.map Emission.room ++
              [jsReplaceFirst (strat.getRoomName room)]) := by
  refine ⟨?_, ?_, ?_⟩
  · intro a b ha
    induction a with
    | nil => simp [replaceFirstSpaceL]
    | cons c cs ih =>
      have hc : c ≠ ' ' := ha c (List.mem_cons_self _ _)
      simp only [List.cons_append, replaceFirstSpaceL, if_neg hc,
        List.append_eq]
      rw [ih (fun x hx => ha x (List.mem_cons_of_mem _ hx))]
  · intro l hl
    induction l with
    | nil => rfl
    | cons c cs ih =>
      have hc : c ≠ ' ' := hl c (List.mem_cons_self _ _)
      simp only [replaceFirstSpaceL, if_neg hc]
      rw [ih (fun x hx => hl x (List.mem_cons_of_mem _ hx))]
  · intro svc gen san tr schema event eventName rawData strat room t hadm
    rw [processRoom_pure]
    simp [hadm, roomEmission]

/-- Witness for C7: in `"ab cd ef"` only the first space becomes a hyphen;
the second survives. -/
theorem room_name_first_space_hyphenated_witness :
    replaceFirstSpaceL (['a', 'b'] ++ ' ' :: ['c', 'd', ' ', 'e', 'f'])
      = ['a', 'b'] ++ '-' :: ['c', 'd', ' ', 'e', 'f'] :=
  room_name_first_space_hyphenated.1 ['a', 'b'] ['c', 'd', ' ', 'e', 'f']
    (by decide)

/-- Chaining rooms one at a time onto an emitter accumulates them in
order. -/
theorem foldl_chain (rs acc : List String) :
    List.foldl (fun chain r => chain ++ [r]) acc rs = acc ++ rs := by
  induction rs generalizing acc with
  | nil => simp
  | cons r rest ih => simp [List.foldl, ih]

/-- C8: `raw` with an absent or empty rooms sequence emits with an empty
scope chain (broadcast to every connected client); with a non-empty rooms
sequence every listed room is chained onto the emitter via `.to(r)`, in the
order the rooms appear (the transport library's chained-scope —
intersection — semantics). -/
theorem raw_room_scoping (event : String) (data : JSVal) :
    ((SocketIOModel.raw event data none).roomChain = []
      ∧ (SocketIOModel.raw event data (some [])).roomChain = [])
    ∧ (∀ rs : List String, rs ≠ [] →
        (SocketIOModel.raw event data (some rs)).roomChain = rs) := by
  refine ⟨⟨rfl, rfl⟩, ?_⟩
  intro rs hrs
  unfold SocketIOModel.raw
  simp [hrs, foldl_chain]

/-- Witness for C8: two listed rooms are chained in order. -/
theorem raw_room_scoping_witness :
    (SocketIOModel.raw "e" JSVal.null (some ["alpha", "beta"])).roomChain
      = ["alpha", "beta"] :=
  (raw_room_scoping "e" JSVal.null).2 ["alpha", "beta"] (by decide)

/-- C10: the two emission surfaces differ in wire shape: `raw` always wraps
the caller's data in an object under the single key `"data"` (and therefore
never emits the data value itself), while the broadcast path emits the
object spread `{ ...data }` of the transformed payload — its own properties
with no wrapper key. -/
theorem wire_payload_shapes :
    (∀ (event : String) (data : JSVal) (rooms : Option (List String)),
        (SocketIOModel.raw event data rooms).payload
          = JSVal.obj [("data", data)])
    ∧ (∀ (event : String) (data : JSVal) (rooms : Option (List String)),
        (SocketIOModel.raw event data rooms).payload ≠ data)
    ∧ (∀ (svc : List (String × Strategy))
        (gen : List ProjectedPermission → Ability)
        (san : JSVal → Schema → AuthCtx → JSVal)
        (tr : JSVal → Schema → JSVal) (schema : Schema)
        (event eventName : String) (rawData : JSVal) (strat : Strategy)
        (room : Room) (t : Trace),
        admits gen schema event room = true →
        (processRoom (pureEnv svc gen san tr) schema event eventName rawData
            strat room t).2.emissions
          = t.emissions ++
            [{ room := jsReplaceFirst (strat.getRoomName room)
               event := eventName
               payload := spread (tr (san rawData schema
                 (mkAuthCtx gen strat room)) schema) }]) := by
  have hwrap : ∀ d : JSVal, JSVal.obj [("data", d)] ≠ d := by
    intro d h
    have hs := congrArg sizeOf h
    simp only [JSVal.obj.sizeOf_spec, List.cons.sizeOf_spec,
      List.nil.sizeOf_spec, Prod.mk.sizeOf_spec] at hs
    omega
  refine ⟨fun _ _ _ => rfl, ?_, ?_⟩
  · intro event data rooms
    exact hwrap data
  · intro svc gen san tr schema event eventName rawData strat room t hadm
    rw [processRoom_pure]
    simp [hadm, roomEmission]

/-- Witness for C10 at the concrete article scenario with identity
services. -/
theorem wire_payload_shapes_witness :
    (processRoom (pureEnv [] (fun _ _ => true) (fun d _ _ => d)
        (fun d _ => d)) articleSchema "update" "article:update" samplePayload
        goodStrategy goodRoom Trace.empty).2.emissions
      = [{ room := jsReplaceFirst "good room", event := "article:update"
           payload := spread samplePayload }] :=
  wire_payload_shapes.2.2 [] (fun _ _ => true) (fun d _ _ => d)
    (fun d _ => d) articleSchema "update" "article:update" samplePayload
    goodStrategy goodRoom Trace.empty rfl
